import Mathlib

/-!
Shallow embedding of `src/server.js`, the authoritative session server for the
"Sevens" shedding card game, together with proofs about its claims.

Modelling conventions:
* JS card objects `{suit, value}` become the `Card` structure; the four suit
  symbols become the `Suit` inductive.
* The board object `{ '♠': null | {low, high}, ... }` becomes the `Board`
  structure with one `Option Run` field per suit.
* `Math.random()`-derived choices are passed in explicitly: the Fisher–Yates
  shuffle takes a function `js : Nat → Nat`, and the swap index for loop
  counter `i` is `js i % (i+1)` (exactly the range `0..i` that
  `Math.floor(Math.random()*(i+1))` produces).  The random room id of
  `create_room` is likewise an explicit argument.
* Each WebSocket message handler becomes a pure function from the room state
  (and the sender's client id) to the new room state together with a `Reply`
  describing what is sent back to the sender: `.silent` for the handler's bare
  `return` statements (no message at all), `.errorMsg m` for
  `ws.send({type:'error', msg: m})`, and `.ok` for the success path (the
  broadcast / game_state emission).
* JS spots that would throw on `undefined` (e.g. `room.players[0].id` on an
  empty room) are modelled as `.silent` no-ops; they are unreachable in the
  server because a room always holds at least one player (empty rooms are
  deleted in the close handler), and every theorem that needs it carries the
  corresponding non-emptiness hypothesis.
-/

/-- The four suit symbols `['♠', '♥', '♦', '♣']` of `createDeck`. -/
inductive Suit where
  | spades
  | hearts
  | diamonds
  | clubs
deriving DecidableEq, Repr

/-- A card object `{suit, value}`; `value` ranges over 7..14 in a real deck. -/
structure Card where
  suit : Suit
  value : Nat
deriving DecidableEq, Repr

/-- A non-empty suit run `{low, high}` as stored in the board object. -/
structure Run where
  low : Nat
  high : Nat
deriving DecidableEq, Repr

/-- The board object `{ '♠': …, '♥': …, '♦': …, '♣': … }`:
one `null`-or-run entry per suit. -/
structure Board where
  spades : Option Run
  hearts : Option Run
  diamonds : Option Run
  clubs : Option Run
deriving DecidableEq, Repr

/-- Reading `board[card.suit]`. -/
def Board.get (b : Board) : Suit → Option Run
  | .spades => b.spades
  | .hearts => b.hearts
  | .diamonds => b.diamonds
  | .clubs => b.clubs

/-- Writing `board[suit] = r`. -/
def Board.set (b : Board) : Suit → Option Run → Board
  | .spades, r => { b with spades := r }
  | .hearts, r => { b with hearts := r }
  | .diamonds, r => { b with diamonds := r }
  | .clubs, r => { b with clubs := r }

/-- Model of `initBoard()`: every suit starts with nothing placed. -/
def initBoard : Board :=
  { spades := none, hearts := none, diamonds := none, clubs := none }

/-- The unshuffled deck built by `createDeck`'s double loop:
`for s of suits, for v = 7..14: push {suit: s, value: v}`. -/
def baseDeck : List Card :=
  [Suit.spades, Suit.hearts, Suit.diamonds, Suit.clubs].flatMap
    (fun s => (List.range' 7 8).map (fun v => { suit := s, value := v }))

/-- Swap the entries at positions `i` and `j` of a list, the effect of
`[deck[i], deck[j]] = [deck[j], deck[i]]`; out-of-range indices leave the
list unchanged (never hit by the shuffle loop). -/
def listSwap (l : List Card) (i j : Nat) : List Card :=
  match l.get? i, l.get? j with
  | some a, some b => (l.set i b).set j a
  | _, _ => l

/-- The Fisher–Yates loop `for (i = len-1; i > 0; i--) swap(deck[i], deck[j])`
with `j = js i % (i+1)`; the argument `i` is the current loop counter. -/
def fisherYates (js : Nat → Nat) : List Card → Nat → List Card
  | deck, 0 => deck
  | deck, i + 1 => fisherYates js (listSwap deck (i + 1) (js (i + 1) % (i + 2))) i

/-- Model of `createDeck()`: build the 32-card deck and shuffle it in place. -/
def createDeck (js : Nat → Nat) : List Card :=
  fisherYates js baseDeck (baseDeck.length - 1)

/-- Model of `dealCards(deck, numPlayers)`: card at index `i` goes to hand `i % numPlayers`. -/
def dealCards (deck : List Card) (numPlayers : Nat) : List (List Card) :=
  (List.range numPlayers).map
    (fun k => ((deck.enum.filter (fun ci => ci.1 % numPlayers == k)).map Prod.snd))

/-- The per-card test of `getValidMoves`: a 7 needs `!board[suit]`, any other
rank needs a run with `value === high + 1 && high < 14`. -/
def cardLegal (board : Board) (card : Card) : Bool :=
  if card.value = 7 then
    (board.get card.suit).isNone
  else
    match board.get card.suit with
    | none => false
    | some b => card.value == b.high + 1 && b.high < 14

/-- Model of `getValidMoves(hand, board)`: the cards of the hand passing `cardLegal`,
in hand order. -/
def getValidMoves (hand : List Card) (board : Board) : List Card :=
  hand.filter (cardLegal board)

/-- A seated player `{id, name, ws, hand, passed, isOut}` (the channel handle
`ws` carries no game state and is omitted). -/
structure Player where
  id : String
  name : String
  hand : List Card
  passed : Bool
  isOut : Bool
deriving DecidableEq, Repr

/-- One room's mutable state (the `rooms[roomId]` object). -/
structure Room where
  players : List Player
  deck : Option (List Card)
  board : Board
  started : Bool
  turn : Nat
  gameOver : Bool
  loser : Option String
deriving DecidableEq, Repr

/-- What a handler sends back to the requesting socket: nothing (a bare
`return`), an `{type:'error', msg}` message, or the success path. -/
inductive Reply where
  | silent
  | errorMsg (msg : String)
  | ok
deriving DecidableEq, Repr

/-- The `while (players[next].isOut && count < players.length)` loop of
`nextTurn`; `fuel` is `players.length - count`. -/
def nextTurnGo (players : List Player) : Nat → Nat → Nat
  | 0, next => next
  | fuel + 1, next =>
    match players.get? next with
    | none => next
    | some p =>
      if p.isOut then nextTurnGo players fuel ((next + 1) % players.length)
      else next

/-- Model of `nextTurn(room)`: step the turn index forward circularly, skipping players
whose `isOut` flag is set, giving up after `players.length` steps. -/
def nextTurn (players : List Player) (turn : Nat) : Nat :=
  nextTurnGo players players.length ((turn + 1) % players.length)

/-- The loser string `activePlayers[0]?.name || 'آخر لاعب'`: JS `||` falls
through on any falsy value, so an empty-string name also yields the fallback. -/
def loserName (active : List Player) : String :=
  match active.head? with
  | none => "آخر لاعب"
  | some p => if p.name = "" then "آخر لاعب" else p.name

/-- Model of `checkGameOver(room)` on the player list: `(true, loser)` when at most one
non-eliminated player remains, `(false, none)` otherwise (in which case the
room's `gameOver`/`loser` fields are left untouched). -/
def checkGameOver (players : List Player) : Bool × Option String :=
  let activePlayers := players.filter (fun p => !p.isOut)
  if activePlayers.length ≤ 1 then (true, some (loserName activePlayers))
  else (false, none)

/-- The fresh room object installed by the `create_room` handler, with the
creating player seated at index 0. -/
def freshRoom (clientId name : String) : Room :=
  { players := [{ id := clientId, name := name, hand := [], passed := false, isOut := false }],
    deck := none, board := initBoard, started := false, turn := 0,
    gameOver := false, loser := none }

/-- The process-wide `rooms` map, room id to room. -/
def RoomsMap : Type := String → Option Room

/-- Assignment `rooms[roomId] = …`: plain JS property assignment, overwriting any
existing entry under the same key. -/
def RoomsMap.store (rooms : RoomsMap) (roomId : String) (r : Room) : RoomsMap :=
  fun k => if k = roomId then some r else rooms k

/-- The `create_room` handler: `generatedId` stands for
`Math.random().toString(36).substr(2, 6).toUpperCase()`.  The handler stores a
fresh room under that id with no collision check and replies `room_created`. -/
def createRoomCmd (rooms : RoomsMap) (generatedId clientId name : String) :
    RoomsMap × String :=
  (rooms.store generatedId (freshRoom clientId name), generatedId)

/-- Model of `players.forEach((p, i) => ...)` setting each hand from the deal
and clearing the `isOut`/`passed` flags: the re-deal step shared by `start_game` and `restart`. -/
def applyDeal (hands : List (List Card)) : Nat → List Player → List Player
  | _, [] => []
  | i, p :: ps =>
    { p with hand := hands.getD i [], isOut := false, passed := false }
      :: applyDeal hands (i + 1) ps

/-- The first-player scan of `start_game`/`restart`: the first seat whose hand
holds the 7♠, defaulting to seat 0. -/
def findFirstSpade7 (players : List Player) : Nat :=
  match players.findIdx? (fun p => p.hand.any (fun c => c.suit == Suit.spades && c.value == 7)) with
  | some i => i
  | none => 0

/-- The dealing/reset block shared verbatim by the `start_game` and `restart`
handlers: fresh shuffled deck, round-robin deal, flags cleared, board emptied,
`started = true`, turn set to the holder of the 7♠. -/
def redealRoom (js : Nat → Nat) (room : Room) : Room :=
  let deck := createDeck js
  let hands := dealCards deck room.players.length
  let players1 := applyDeal hands 0 room.players
  { room with
    players := players1, deck := some deck, board := initBoard,
    started := true, gameOver := false, loser := none,
    turn := findFirstSpade7 players1 }

/-- The `start_game` handler.  Note: it checks only host and player count —
there is no `room.started` / lobby-state check in the source. -/
def startGame (js : Nat → Nat) (room : Room) (clientId : String) : Room × Reply :=
  match room.players.head? with
  | none => (room, .silent)
  | some host =>
    if host.id ≠ clientId then (room, .errorMsg "فقط المضيف يمكنه البدء")
    else if room.players.length < 2 then (room, .errorMsg "يلزم لاعبان على الأقل")
    else (redealRoom js room, .ok)

/-- The `restart` handler: host-only (silent otherwise), no other checks, then
the same dealing/reset block as `start_game`. -/
def restart (js : Nat → Nat) (room : Room) (clientId : String) : Room × Reply :=
  match room.players.head? with
  | none => (room, .silent)
  | some host =>
    if host.id ≠ clientId then (room, .silent)
    else (redealRoom js room, .ok)

/-- The board-update block of `play_card`: a 7 opens the run at `{low:7,
high:7}`; otherwise `b.high` is bumped when `card.value === b.high + 1`.
(The source dereferences `b.high` unconditionally here, which would throw on a
`null` run — unreachable because the card already passed `getValidMoves`.) -/
def applyCardToBoard (board : Board) (card : Card) : Board :=
  if card.value = 7 then board.set card.suit (some { low := 7, high := 7 })
  else
    match board.get card.suit with
    | none => board
    | some b =>
      if card.value = b.high + 1 then board.set card.suit (some { b with high := card.value })
      else board

/-- The `play_card` handler. -/
def playCard (room : Room) (clientId : String) (card : Card) : Room × Reply :=
  if !room.started || room.gameOver then (room, .silent)
  else
    match room.players.get? room.turn with
    | none => (room, .silent)
    | some player =>
      if player.id ≠ clientId then (room, .silent)
      else
        let validMoves := getValidMoves player.hand room.board
        if (validMoves.find? (fun c => c.suit == card.suit && c.value == card.value)).isNone
        then (room, .errorMsg "حركة غير صالحة")
        else
          let hand1 := player.hand.filter (fun c => !(c.suit == card.suit && c.value == card.value))
          let board1 := applyCardToBoard room.board card
          let outNow := hand1.isEmpty
          let player1 := { player with
            hand := hand1,
            passed := false,
            isOut := player.isOut || outNow }
          let players1 := room.players.set room.turn player1
          let room1 := { room with players := players1, board := board1 }
          if outNow ∧ (checkGameOver players1).1 then
            ({ room1 with gameOver := true, loser := (checkGameOver players1).2 }, .ok)
          else
            ({ room1 with turn := nextTurn players1 room1.turn }, .ok)

/-- The `pass` handler. -/
def passCmd (room : Room) (clientId : String) : Room × Reply :=
  if !room.started || room.gameOver then (room, .silent)
  else
    match room.players.get? room.turn with
    | none => (room, .silent)
    | some player =>
      if player.id ≠ clientId then (room, .silent)
      else if (getValidMoves player.hand room.board).length > 0 then
        (room, .errorMsg "لا يمكنك التمرير، لديك حركات صالحة")
      else
        let players1 := room.players.set room.turn { player with passed := true }
        ({ room with players := players1, turn := nextTurn players1 room.turn }, .ok)

/-- Membership in `getValidMoves` unfolded to the `cardLegal` test. -/
theorem mem_getValidMoves_iff (hand : List Card) (board : Board) (card : Card) :
    card ∈ getValidMoves hand board ↔ card ∈ hand ∧ cardLegal board card = true := by
  simp [getValidMoves, List.mem_filter]

/-- C1: a card of the hand with rank 7 is legal iff its suit's run is empty;
a card of rank `r > 7` (with `r ≤ 14`, every real card) is legal iff the
suit's run is non-empty and its current high is `r − 1`.  The ace (`r = 14`)
is covered by the second part (legal exactly as the cap on high 13), and no
rank above the ace exists in a hand. -/
theorem c1_getValidMoves_characterization
    (hand : List Card) (board : Board) (card : Card)
    (hmem : card ∈ hand) (hrank : 7 ≤ card.value ∧ card.value ≤ 14) :
    (card.value = 7 → (card ∈ getValidMoves hand board ↔ board.get card.suit = none)) ∧
    (7 < card.value → (card ∈ getValidMoves hand board ↔
      ∃ b, board.get card.suit = some b ∧ b.high + 1 = card.value)) := by
  obtain ⟨hlo, hhi⟩ := hrank
  constructor
  · intro h7
    rw [mem_getValidMoves_iff]
    simp [cardLegal, h7, hmem, Option.isNone_iff_eq_none]
  · intro hgt
    have hne : ¬ card.value = 7 := by omega
    rw [mem_getValidMoves_iff]
    cases hb : board.get card.suit with
    | none => simp [cardLegal, hne, hb, hmem]
    | some b =>
      simp only [cardLegal, if_neg hne, hb, hmem, true_and, Bool.and_eq_true,
        beq_iff_eq, decide_eq_true_eq, Option.some.injEq]
      constructor
      · rintro ⟨hval, _⟩
        exact ⟨b, rfl, hval.symm⟩
      · rintro ⟨b', hb', hval⟩
        cases hb'
        omega

/-- Witness for C1 at a concrete input: with an empty board, the 7♠ in a
one-card hand is a legal move. -/
theorem c1_witness :
    ({ suit := Suit.spades, value := 7 } : Card) ∈
        getValidMoves [{ suit := Suit.spades, value := 7 }] initBoard := by
  have h := c1_getValidMoves_characterization
    [{ suit := Suit.spades, value := 7 }] initBoard
    { suit := Suit.spades, value := 7 } (by decide) (by decide)
  exact (h.1 rfl).mpr rfl

/-- A concrete player used by witnesses: Alice holds only the 9♥. -/
def alice : Player :=
  { id := "a", name := "Alice",
    hand := [{ suit := Suit.hearts, value := 9 }], passed := false, isOut := false }

/-- A concrete player used by witnesses: Bob holds only the 7♠. -/
def bob : Player :=
  { id := "b", name := "Bob",
    hand := [{ suit := Suit.spades, value := 7 }], passed := false, isOut := false }

/-- A concrete in-progress two-player room, empty board, Alice to move. -/
def roomInProgress : Room :=
  { players := [alice, bob], deck := none, board := initBoard,
    started := true, turn := 0, gameOver := false, loser := none }

/-- If the attempted card is not in the legal-move set, the `find?` matching
it by suit and value comes up empty. -/
theorem find_matching_eq_none (moves : List Card) (card : Card)
    (hcard : card ∉ moves) :
    moves.find? (fun c => c.suit == card.suit && c.value == card.value) = none := by
  rw [List.find?_eq_none]
  intro c hc
  simp only [Bool.and_eq_true, beq_iff_eq, not_and]
  intro h1 h2
  have hceq : c = card := by
    cases c; cases card; simp_all
  exact absurd (hceq ▸ hc) hcard

/-- C5: in an in-progress room, a `play_card` whose card is not in the current
player's legal-move set is answered with the illegal-move error and leaves the
room — hand and board included — exactly as it was. -/
theorem c5_playCard_illegal_unchanged
    (room : Room) (clientId : String) (card : Card) (player : Player)
    (hs : room.started = true) (hg : room.gameOver = false)
    (hp : room.players.get? room.turn = some player)
    (hid : player.id = clientId)
    (hcard : card ∉ getValidMoves player.hand room.board) :
    playCard room clientId card = (room, Reply.errorMsg "حركة غير صالحة") := by
  have hfind := find_matching_eq_none (getValidMoves player.hand room.board) card hcard
  unfold playCard
  rw [hs, hg, hp]
  simp [hid, hfind]

/-- Witness for C5: Alice attempts the 9♥ on an empty board (the spec's own
scenario) and is answered `IllegalMove` with the room unchanged. -/
theorem c5_witness :
    playCard roomInProgress "a" { suit := Suit.hearts, value := 9 } =
      (roomInProgress, Reply.errorMsg "حركة غير صالحة") := by
  exact c5_playCard_illegal_unchanged roomInProgress "a"
    { suit := Suit.hearts, value := 9 } alice rfl rfl rfl rfl (by decide)

/-- Counterexample to C3 as stated: in a live room it is Alice's turn, yet a
`play_card` and a `pass` from the non-current sender `"b"` produce **no**
message at all (the handlers hit a bare `return`), rather than the claimed
`NotYourTurn` error message; the room is unchanged. -/
theorem c3_counterexample :
    playCard roomInProgress "b" { suit := Suit.spades, value := 7 } =
        (roomInProgress, Reply.silent) ∧
      passCmd roomInProgress "b" = (roomInProgress, Reply.silent) := by
  constructor <;> rfl

/-- C3 (amended): in every in-progress room, a `play_card` or `pass` from a
sender who is not the current turn's player is dropped silently — no error
message (nor any other reply) is sent, and the room state is unchanged. -/
theorem c3_wrong_turn_silently_ignored
    (room : Room) (clientId : String) (card : Card) (player : Player)
    (hs : room.started = true) (hg : room.gameOver = false)
    (hp : room.players.get? room.turn = some player)
    (hid : player.id ≠ clientId) :
    playCard room clientId card = (room, Reply.silent) ∧
      passCmd room clientId = (room, Reply.silent) := by
  constructor
  · unfold playCard
    rw [hs, hg, hp]
    simp [hid]
  · unfold passCmd
    rw [hs, hg, hp]
    simp [hid]

/-- Witness for the amended C3 at a concrete input. -/
theorem c3_witness :
    playCard roomInProgress "b" { suit := Suit.hearts, value := 9 } =
        (roomInProgress, Reply.silent) ∧
      passCmd roomInProgress "b" = (roomInProgress, Reply.silent) := by
  exact c3_wrong_turn_silently_ignored roomInProgress "b"
    { suit := Suit.hearts, value := 9 } alice rfl rfl rfl (by decide)

/-- Every player coming out of the re-deal loop has `isOut` and `passed`
cleared. -/
theorem applyDeal_mem_flags (hands : List (List Card)) :
    ∀ (i : Nat) (ps : List Player), ∀ p ∈ applyDeal hands i ps,
      p.isOut = false ∧ p.passed = false
  | _, [] => by simp [applyDeal]
  | i, q :: ps => by
    intro p hp
    simp only [applyDeal, List.mem_cons] at hp
    cases hp with
    | inl h => subst h; exact ⟨rfl, rfl⟩
    | inr h => exact applyDeal_mem_flags hands (i + 1) ps p h

/-- The dealing/reset block leaves the room freshly dealt: started, empty
board, no game-over, no loser, a fresh deck, and every flag cleared. -/
theorem redealRoom_spec (js : Nat → Nat) (room : Room) :
    (redealRoom js room).started = true ∧
    (redealRoom js room).board = initBoard ∧
    (redealRoom js room).gameOver = false ∧
    (redealRoom js room).loser = none ∧
    (redealRoom js room).deck = some (createDeck js) ∧
    ∀ p ∈ (redealRoom js room).players, p.isOut = false ∧ p.passed = false := by
  refine ⟨rfl, rfl, rfl, rfl, rfl, ?_⟩
  intro p hp
  exact applyDeal_mem_flags _ 0 room.players p hp

/-- A concrete mid-game room: started, spades run up to 9, Bob to move. -/
def roomMidGame : Room :=
  { players := [alice, bob], deck := none,
    board := initBoard.set Suit.spades (some { low := 7, high := 9 }),
    started := true, turn := 1, gameOver := false, loser := none }

/-- Counterexample to C2 as stated: `roomMidGame` is already started, yet a
`start_game` from the host succeeds (`.ok`, not an `AlreadyStarted` error) and
mutates the room: the board is reset and a fresh deck is dealt. -/
theorem c2_counterexample :
    roomMidGame.started = true ∧
      (startGame (fun _ => 0) roomMidGame "a").2 = Reply.ok ∧
      (startGame (fun _ => 0) roomMidGame "a").1.board ≠ roomMidGame.board ∧
      (startGame (fun _ => 0) roomMidGame "a").1.deck ≠ roomMidGame.deck := by
  refine ⟨rfl, rfl, ?_, ?_⟩ <;> decide

/-- C2 (amended): the `start_game` handler performs no lobby-state check: in a
room that is already started, a `start_game` from the host with at least two
seated players is accepted (`.ok`) and re-deals — fresh shuffle and deal,
board emptied, flags cleared — exactly like `restart`, instead of failing
with `AlreadyStarted`. -/
theorem c2_startGame_ignores_started
    (js : Nat → Nat) (room : Room) (clientId : String) (host : Player)
    (_hstarted : room.started = true)
    (hh : room.players.head? = some host) (hid : host.id = clientId)
    (hn : 2 ≤ room.players.length) :
    startGame js room clientId = (redealRoom js room, Reply.ok) ∧
      (redealRoom js room).started = true ∧
      (redealRoom js room).board = initBoard ∧
      (redealRoom js room).deck = some (createDeck js) ∧
      ∀ p ∈ (redealRoom js room).players, p.isOut = false ∧ p.passed = false := by
  have hlt : ¬ room.players.length < 2 := by omega
  have hspec := redealRoom_spec js room
  refine ⟨?_, hspec.1, hspec.2.1, hspec.2.2.2.2.1, hspec.2.2.2.2.2⟩
  unfold startGame
  rw [hh]
  simp [hid, hlt]

/-- Witness for the amended C2: the host restarts the already-running
`roomMidGame` via `start_game` and gets a fresh deal. -/
theorem c2_witness :
    startGame (fun _ => 0) roomMidGame "a" =
        (redealRoom (fun _ => 0) roomMidGame, Reply.ok) ∧
      (redealRoom (fun _ => 0) roomMidGame).board = initBoard := by
  have h := c2_startGame_ignores_started (fun _ => 0) roomMidGame "a" alice
    rfl rfl rfl (by decide)
  exact ⟨h.1, h.2.2.1⟩

/-- C10: a `restart` from the host is accepted with no further checks — no
lobby/in-progress/finished restriction and no minimum player count — and
performs the full deal/reset: fresh shuffle and deal, board emptied,
eliminated/passed flags cleared, `started` set true. -/
theorem c10_restart_unconditional_redeal
    (js : Nat → Nat) (room : Room) (clientId : String) (host : Player)
    (hh : room.players.head? = some host) (hid : host.id = clientId) :
    restart js room clientId = (redealRoom js room, Reply.ok) ∧
      (redealRoom js room).started = true ∧
      (redealRoom js room).board = initBoard ∧
      (redealRoom js room).gameOver = false ∧
      (redealRoom js room).loser = none ∧
      (redealRoom js room).deck = some (createDeck js) ∧
      ∀ p ∈ (redealRoom js room).players, p.isOut = false ∧ p.passed = false := by
  have hspec := redealRoom_spec js room
  refine ⟨?_, hspec⟩
  unfold restart
  rw [hh]
  simp [hid]

/-- Witness for C10: a still-in-lobby room with a single seated player (the
host) is restarted successfully and comes out started and freshly dealt. -/
theorem c10_witness :
    (freshRoom "h" "Host").started = false ∧
      (freshRoom "h" "Host").players.length = 1 ∧
      restart (fun _ => 0) (freshRoom "h" "Host") "h" =
        (redealRoom (fun _ => 0) (freshRoom "h" "Host"), Reply.ok) ∧
      (redealRoom (fun _ => 0) (freshRoom "h" "Host")).started = true := by
  have h := c10_restart_unconditional_redeal (fun _ => 0) (freshRoom "h" "Host") "h"
    { id := "h", name := "Host", hand := [], passed := false, isOut := false } rfl rfl
  exact ⟨rfl, rfl, h.1, h.2.1⟩

/-- C4 (amended): `create_room` installs the fresh room under the generated
identifier unconditionally — the id is **not** collision-checked against the
existing rooms map, so whatever was stored under that identifier (live or
not) is replaced by the fresh lobby room. -/
theorem c4_createRoom_overwrites
    (rooms : RoomsMap) (generatedId clientId name : String) :
    (createRoomCmd rooms generatedId clientId name).1 generatedId =
        some (freshRoom clientId name) ∧
      (createRoomCmd rooms generatedId clientId name).2 = generatedId := by
  constructor
  · simp [createRoomCmd, RoomsMap.store]
  · rfl

/-- Counterexample to C4 as stated: a registry holds the live, already-started
`roomMidGame` under id `"ABC123"`; a `create_room` whose generated id
collides with it silently replaces that room with the new lobby room, so a
create-room command can overwrite an already-live room's state. -/
theorem c4_counterexample :
    (createRoomCmd (RoomsMap.store (fun _ => none) "ABC123" roomMidGame)
          "ABC123" "c" "Carol").1 "ABC123" = some (freshRoom "c" "Carol") ∧
      some (freshRoom "c" "Carol") ≠ some roomMidGame ∧
      (RoomsMap.store (fun _ => none) "ABC123" roomMidGame) "ABC123" =
        some roomMidGame := by
  refine ⟨?_, by decide, ?_⟩ <;> simp [createRoomCmd, RoomsMap.store]

/-- A concrete eliminated player. -/
def outBob : Player :=
  { id := "ob", name := "OutBob", hand := [], passed := false, isOut := true }

/-- A concrete non-eliminated player whose display name is the empty string
(nothing stops a client from sending `name: ""`). -/
def ghost : Player :=
  { id := "g", name := "", hand := [{ suit := Suit.clubs, value := 8 }],
    passed := false, isOut := false }

/-- Counterexample to C6 as stated: exactly one non-eliminated player remains
and it is `ghost`, yet the reported loser is the fallback string, not that
player's (empty) name — JS `||` treats the empty string as falsy. -/
theorem c6_counterexample :
    ([ghost, outBob].filter (fun p => !p.isOut)) = [ghost] ∧
      (checkGameOver [ghost, outBob]).1 = true ∧
      (checkGameOver [ghost, outBob]).2 ≠ some ghost.name := by
  refine ⟨rfl, rfl, by decide⟩

/-- C6 (amended): `checkGameOver` fires exactly when at most one
non-eliminated player remains; if exactly one remains and its name is a
non-empty string the loser is that player's name, while an empty-string name
— like the zero-remaining case — is reported as the fallback placeholder
`'آخر لاعب'` rather than crashing. -/
theorem c6_checkGameOver_spec (players : List Player) :
    ((checkGameOver players).1 = true ↔
        (players.filter (fun p => !p.isOut)).length ≤ 1) ∧
      (∀ p, players.filter (fun p => !p.isOut) = [p] → p.name ≠ "" →
        (checkGameOver players).2 = some p.name) ∧
      (∀ p, players.filter (fun p => !p.isOut) = [p] → p.name = "" →
        (checkGameOver players).2 = some "آخر لاعب") ∧
      (players.filter (fun p => !p.isOut) = [] →
        (checkGameOver players).2 = some "آخر لاعب") := by
  refine ⟨?_, ?_, ?_, ?_⟩
  · by_cases hlen : (players.filter (fun p => !p.isOut)).length ≤ 1 <;>
      simp [checkGameOver, hlen]
  · intro p hp hname
    simp [checkGameOver, hp, loserName, hname]
  · intro p hp hname
    simp [checkGameOver, hp, loserName, hname]
  · intro h
    simp [checkGameOver, h, loserName]

/-- Witness for the amended C6: Alice is the single remaining active player
and is duly reported as the loser. -/
theorem c6_witness :
    (checkGameOver [alice, outBob]).1 = true ∧
      (checkGameOver [alice, outBob]).2 = some "Alice" := by
  have h := c6_checkGameOver_spec [alice, outBob]
  exact ⟨h.1.mpr (by decide), h.2.1 alice rfl (by decide)⟩

/-- The `isOut` flag seen at seat `k`, `true` when the seat does not exist
(out-of-range seats are never selected below). -/
def isOutAt (players : List Player) (k : Nat) : Bool :=
  ((players.get? k).map Player.isOut).getD true

/-- If some seat reachable within `fuel` forward steps from `next` holds a
non-eliminated player, the `nextTurn` loop stops on a non-eliminated seat. -/
theorem nextTurnGo_not_out (players : List Player) (hlen : 0 < players.length) :
    ∀ (fuel next : Nat), next < players.length →
      (∃ i, i < fuel ∧ isOutAt players ((next + i) % players.length) = false) →
      isOutAt players (nextTurnGo players fuel next) = false := by
  intro fuel
  induction fuel with
  | zero =>
    rintro next _ ⟨i, hi, _⟩
    omega
  | succ k ih =>
    rintro next hnext ⟨i, hi, hfalse⟩
    obtain ⟨p, hp⟩ : ∃ p, players.get? next = some p :=
      ⟨players.get ⟨next, hnext⟩, List.get?_eq_get hnext⟩
    rw [nextTurnGo, hp]
    show isOutAt players
      (if p.isOut = true then nextTurnGo players k ((next + 1) % players.length)
       else next) = false
    cases hout : p.isOut with
    | false =>
      rw [if_neg (by simp)]
      unfold isOutAt
      rw [hp]
      simp [hout]
    | true =>
      rw [if_pos rfl]
      apply ih ((next + 1) % players.length) (Nat.mod_lt _ hlen)
      rcases i with _ | i'
      · exfalso
        rw [Nat.add_zero, Nat.mod_eq_of_lt hnext] at hfalse
        unfold isOutAt at hfalse
        rw [hp] at hfalse
        simp [hout] at hfalse
      · refine ⟨i', by omega, ?_⟩
        rw [Nat.mod_add_mod, show next + 1 + i' = next + (i' + 1) from by omega]
        exact hfalse

/-- C7: while at least one non-eliminated player is seated, `nextTurn` moves
the turn index to a seat held by a non-eliminated player — never an
eliminated one — and the loop is bounded by `playerCount` steps: even in the
pathological all-eliminated state it terminates, landing on the seat directly
after the current one. -/
theorem c7_nextTurn_spec (players : List Player) (turn : Nat)
    (hne : players ≠ []) :
    ((∃ p ∈ players, p.isOut = false) →
        ∃ q, players.get? (nextTurn players turn) = some q ∧ q.isOut = false) ∧
      ((∀ p ∈ players, p.isOut = true) →
        nextTurn players turn = (turn + 1) % players.length) := by
  have hlen : 0 < players.length := List.length_pos.mpr hne
  constructor
  · rintro ⟨p, hmem, hout⟩
    obtain ⟨j, hj⟩ := List.mem_iff_get?.mp hmem
    have hjlt : j < players.length := (List.get?_eq_some.mp hj).choose
    set start := (turn + 1) % players.length with hstart
    have hstartlt : start < players.length := Nat.mod_lt _ hlen
    have hkey : isOutAt players (nextTurnGo players players.length start) = false := by
      apply nextTurnGo_not_out players hlen players.length start hstartlt
      refine ⟨(j + players.length - start) % players.length, Nat.mod_lt _ hlen, ?_⟩
      have hidx : (start + (j + players.length - start) % players.length) %
          players.length = j := by
        rw [Nat.add_mod_mod,
          show start + (j + players.length - start) = j + players.length from by omega,
          Nat.add_mod_right, Nat.mod_eq_of_lt hjlt]
      rw [hidx]
      unfold isOutAt
      rw [hj]
      simp [hout]
    unfold nextTurn
    rw [← hstart]
    unfold isOutAt at hkey
    cases hres : players.get? (nextTurnGo players players.length start) with
    | none => rw [hres] at hkey; simp at hkey
    | some q =>
      rw [hres] at hkey
      simp only [Option.map_some', Option.getD_some] at hkey
      exact ⟨q, rfl, hkey⟩
  · intro hall
    have hgo : ∀ (fuel next : Nat), next < players.length →
        nextTurnGo players fuel next = (next + fuel) % players.length := by
      intro fuel
      induction fuel with
      | zero =>
        intro next hnext
        rw [nextTurnGo, Nat.add_zero, Nat.mod_eq_of_lt hnext]
      | succ k ih =>
        intro next hnext
        obtain ⟨p, hp⟩ : ∃ p, players.get? next = some p :=
          ⟨players.get ⟨next, hnext⟩, List.get?_eq_get hnext⟩
        have hpmem : p ∈ players := List.get?_mem hp
        rw [nextTurnGo, hp]
        show (if p.isOut = true then nextTurnGo players k ((next + 1) % players.length)
              else next) = (next + (k + 1)) % players.length
        rw [if_pos (hall p hpmem)]
        rw [ih ((next + 1) % players.length) (Nat.mod_lt _ hlen), Nat.mod_add_mod,
          show next + 1 + k = next + (k + 1) from by omega]
    unfold nextTurn
    rw [hgo _ _ (Nat.mod_lt _ hlen), Nat.mod_add_mod,
      show turn + 1 + players.length = turn + 1 + players.length from rfl,
      Nat.add_mod_right]

/-- Witness for C7: with Alice active and OutBob eliminated the loop lands on
a non-eliminated seat, and with only eliminated players it still terminates
on the next seat. -/
theorem c7_witness :
    nextTurn [outBob] 3 = 0 ∧
      ([alice, outBob].get? (nextTurn [alice, outBob] 1)).map Player.isOut =
        some false := by
  have h2 := (c7_nextTurn_spec [outBob] 3 (by decide)).2 (by decide)
  have h1 := (c7_nextTurn_spec [alice, outBob] 1 (by decide)).1
    ⟨alice, by simp [alice], rfl⟩
  obtain ⟨q, hq, hout⟩ := h1
  exact ⟨h2, by rw [hq, Option.map_some', hout]⟩

/-- Reading a board after writing one suit: the written suit returns the new
entry, the others are untouched. -/
theorem Board.get_set (b : Board) (s t : Suit) (r : Option Run) :
    (b.set s r).get t = if t = s then r else b.get t := by
  cases s <;> cases t <;> simp [Board.set, Board.get]

/-- One legal play never clears a suit's run and never lowers its high: a 7
only writes into an empty suit, and a higher card bumps its own suit's high
from `r − 1` to `r`. -/
theorem applyCardToBoard_mono (b : Board) (card : Card)
    (hlegal : cardLegal b card = true) :
    ∀ s r, b.get s = some r →
      ∃ r', (applyCardToBoard b card).get s = some r' ∧ r.high ≤ r'.high := by
  intro s r hr
  unfold cardLegal at hlegal
  unfold applyCardToBoard
  by_cases h7 : card.value = 7
  · rw [if_pos h7] at hlegal ⊢
    rw [Option.isNone_iff_eq_none] at hlegal
    have hs : s ≠ card.suit := by
      intro he
      rw [he, hlegal] at hr
      exact Option.noConfusion hr
    rw [Board.get_set, if_neg hs]
    exact ⟨r, hr, le_refl _⟩
  · rw [if_neg h7] at hlegal
    cases hb : b.get card.suit with
    | none => rw [hb] at hlegal; exact absurd hlegal (by simp)
    | some run =>
      rw [hb] at hlegal
      simp only [Bool.and_eq_true, beq_iff_eq, decide_eq_true_eq] at hlegal
      obtain ⟨hval, _⟩ := hlegal
      rw [if_neg h7]
      show ∃ r',
        ((if card.value = run.high + 1 then
            b.set card.suit (some { low := run.low, high := card.value })
          else b).get s) = some r' ∧ r.high ≤ r'.high
      rw [if_pos hval]
      by_cases hs : s = card.suit
      · subst hs
        rw [hr] at hb
        cases hb
        rw [Board.get_set, if_pos rfl]
        exact ⟨{ r with high := card.value }, rfl, by show r.high ≤ card.value; omega⟩
      · rw [Board.get_set, if_neg hs]
        exact ⟨r, hr, le_refl _⟩

/-- A sequence of plays, each legal on the board it is applied to — exactly
the plays the `play_card` handler lets through (a played card is a member of
`getValidMoves`, hence passes `cardLegal`). -/
inductive LegalSeq : Board → Board → Prop where
  | refl (b : Board) : LegalSeq b b
  | step {b b2 : Board} (card : Card) : cardLegal b card = true →
      LegalSeq (applyCardToBoard b card) b2 → LegalSeq b b2

/-- C8: across every sequence of applied legal plays, each suit-run's recorded
high is monotonically non-decreasing, and a non-empty run is never reset to
empty by a play — only `initBoard` (the deal/restart path) empties runs. -/
theorem c8_high_monotone (b b2 : Board) (hseq : LegalSeq b b2) :
    ∀ s r, b.get s = some r → ∃ r', b2.get s = some r' ∧ r.high ≤ r'.high := by
  induction hseq with
  | refl b => exact fun s r hr => ⟨r, hr, le_refl _⟩
  | step card hcard _ ih =>
    intro s r hr
    obtain ⟨r1, hr1, hle1⟩ := applyCardToBoard_mono _ card hcard s r hr
    obtain ⟨r2, hr2, hle2⟩ := ih s r1 hr1
    exact ⟨r2, hr2, le_trans hle1 hle2⟩

/-- Witness for C8: playing the legal 8♠ on a board whose spades run is at
high 7 keeps the run present with a high no lower than 7. -/
theorem c8_witness :
    cardLegal (initBoard.set Suit.spades (some { low := 7, high := 7 }))
        { suit := Suit.spades, value := 8 } = true ∧
      ∃ r', (applyCardToBoard (initBoard.set Suit.spades (some { low := 7, high := 7 }))
          { suit := Suit.spades, value := 8 }).get Suit.spades = some r' ∧
        (7 : Nat) ≤ r'.high := by
  refine ⟨by decide, ?_⟩
  exact c8_high_monotone _ _
    (LegalSeq.step { suit := Suit.spades, value := 8 } (by decide) (LegalSeq.refl _))
    Suit.spades { low := 7, high := 7 } (by decide)

/-- Moving the element at position `m` to the front while dropping `x` into
its slot is a permutation: the inner step of a Fisher–Yates swap. -/
theorem cons_perm_set (x : Card) :
    ∀ (xs : List Card) (m : Nat) (c : Card), xs.get? m = some c →
      List.Perm (x :: xs) (c :: xs.set m x)
  | [], m, c, h => by simp at h
  | y :: t, 0, c, h => by
    cases h
    exact List.Perm.swap _ _ _
  | y :: t, m + 1, c, h => by
    have ih := cons_perm_set x t m c h
    show List.Perm (x :: y :: t) (c :: y :: t.set m x)
    exact List.Perm.trans (List.Perm.swap y x t)
      (List.Perm.trans (List.Perm.cons y ih) (List.Perm.swap c y (t.set m x)))

/-- One in-place swap of two list positions is a permutation. -/
theorem set_set_perm :
    ∀ (l : List Card) (i j : Nat) (a c : Card), l.get? i = some a →
      l.get? j = some c → List.Perm ((l.set i c).set j a) l
  | [], i, _, _, _, hi, _ => by simp at hi
  | x :: t, 0, 0, a, c, hi, hj => by
    cases hi; cases hj
    exact List.Perm.refl _
  | x :: t, 0, m + 1, a, c, hi, hj => by
    cases hi
    exact (cons_perm_set x t m c hj).symm
  | x :: t, n + 1, 0, a, c, hi, hj => by
    cases hj
    exact (cons_perm_set x t n a hi).symm
  | x :: t, n + 1, m + 1, a, c, hi, hj =>
    List.Perm.cons x (set_set_perm t n m a c hi hj)

/-- Swapping two positions is always a permutation. -/
theorem listSwap_perm (l : List Card) (i j : Nat) : List.Perm (listSwap l i j) l := by
  unfold listSwap
  cases hi : l.get? i with
  | none => exact List.Perm.refl _
  | some a =>
    cases hj : l.get? j with
    | none => exact List.Perm.refl _
    | some c => exact set_set_perm l i j a c hi hj

/-- The whole Fisher–Yates loop is a permutation of its input. -/
theorem fisherYates_perm (js : Nat → Nat) :
    ∀ (i : Nat) (deck : List Card), List.Perm (fisherYates js deck i) deck
  | 0, deck => List.Perm.refl deck
  | i + 1, deck =>
    List.Perm.trans
      (fisherYates_perm js i (listSwap deck (i + 1) (js (i + 1) % (i + 2))))
      (listSwap_perm deck (i + 1) (js (i + 1) % (i + 2)))

/-- C9: for every sequence of random draws, the shuffled deck produced by
`createDeck` is a permutation of the canonical 32-card set — the pairs
(suit, rank) with rank 7..14, each exactly once, no duplicates or
omissions. -/
theorem c9_createDeck_perm (js : Nat → Nat) :
    List.Perm (createDeck js) baseDeck ∧
      baseDeck.Nodup ∧
      baseDeck.length = 32 ∧
      ∀ (s : Suit) (v : Nat),
        ({ suit := s, value := v } : Card) ∈ baseDeck ↔ 7 ≤ v ∧ v ≤ 14 := by
  refine ⟨fisherYates_perm js _ baseDeck, by decide, by decide, ?_⟩
  intro s v
  constructor
  · intro h
    simp only [baseDeck, List.mem_flatMap, List.mem_map, List.mem_range'_1] at h
    obtain ⟨a, _, v', hv', heq⟩ := h
    have hvv : v' = v := congrArg Card.value heq
    omega
  · rintro ⟨h1, h2⟩
    simp only [baseDeck, List.mem_flatMap, List.mem_map, List.mem_range'_1]
    refine ⟨s, ?_, v, ⟨h1, by omega⟩, rfl⟩
    cases s <;> simp

/-- Witness for C4 at a concrete input: creating a room in an empty registry
stores the fresh room under the generated id and relays that id. -/
theorem c4_witness :
    (createRoomCmd (fun _ => none) "XYZ789" "d" "Dana").1 "XYZ789" =
        some (freshRoom "d" "Dana") ∧
      (createRoomCmd (fun _ => none) "XYZ789" "d" "Dana").2 = "XYZ789" :=
  c4_createRoom_overwrites (fun _ => none) "XYZ789" "d" "Dana"

/-- Witness for C9 at a concrete draw sequence: the all-zero draws produce a
permutation of the canonical deck. -/
theorem c9_witness : List.Perm (createDeck (fun _ => 0)) baseDeck :=
  (c9_createDeck_perm (fun _ => 0)).1
